import Mathlib

/-!
# testlock: a shallow embedding of `examples/testlock.c`

The program creates `nthreads` worker threads, each of which increments one
slot of a shared block of 32-bit counters and a private 64-bit progress
counter, while the main thread polls progress, joins the workers and reports
the elapsed time.

Conventions of the embedding.

* C `int`, `time_t` and `suseconds_t` values are `Int`. The one `int`
  product formed from unchecked options (line 316) is reduced into the `int`
  range by `int_wrap`.
* `uint32_t` and `uint64_t` values are `Nat` and every update is reduced
  modulo `2^32`, respectively `2^64`, exactly where the C code stores it.
* What the platform supplies (the processor count, the result of
  `pthread_create` and of `pthread_setaffinity_np`, the clock readings) is an
  explicit argument.
* The global `g` is its memory in 32-bit words counted from `g.v.ctr[0]`: a
  pointer into `g.v.ctr` is the index of the word it designates, and the four
  `int` members of `g` are the words that follow the array.
-/

namespace Testlock

/-! ## Data model -/

/-- The platform `struct timeval`: seconds and microseconds, both signed. -/
structure timeval where
  tv_sec : Int
  tv_usec : Int
deriving DecidableEq, Repr

/-- Number of elements of `g.v.ctr` (`uint32_t ctr[1024]`). -/
def ctr_len : Nat := 1024

/-- The value a 32-bit word holds when it is read as an `int`. -/
def int_of_word (w : Nat) : Int :=
  if w % 2 ^ 32 < 2 ^ 31 then Int.ofNat (w % 2 ^ 32) else Int.ofNat (w % 2 ^ 32) - 2 ^ 32

/-- The 32-bit word that stores an `int`. -/
def word_of_int (x : Int) : Nat := (x % (2 ^ 32 : Int)).toNat

/-- The value an `int` operation leaves for the exact result `x`: `x` itself
when it is representable, and its two's-complement reduction into
`-2^31 .. 2^31-1` otherwise. -/
def int_wrap (x : Int) : Int := (x + 2 ^ 31) % 2 ^ 32 - 2 ^ 31

/-- The `struct glob_arg` of the source, as the 32-bit words of its memory
counted from `g.v.ctr[0]`. The member `v` comes first and fills 4096 bytes,
and the four `int` members follow it without padding, so words `0 .. 1023`
are `v.ctr`, word 1024 is `m_cycles`, word 1025 is `nthreads`, word 1026 is
`cpus` and word 1027 is `privs`. Words from 1028 on are the memory behind
the members of `g`, of which the worker reads nothing. -/
structure glob_arg where
  ctr : Nat → Nat

/-- The member `g.m_cycles`: the word right behind the counter block. -/
def glob_arg.m_cycles (g : glob_arg) : Int := int_of_word (g.ctr ctr_len)

/-- The member `g.nthreads`. -/
def glob_arg.nthreads (g : glob_arg) : Int := int_of_word (g.ctr (ctr_len + 1))

/-- The member `g.cpus`. -/
def glob_arg.cpus (g : glob_arg) : Int := int_of_word (g.ctr (ctr_len + 2))

/-- The member `g.privs`. -/
def glob_arg.privs (g : glob_arg) : Int := int_of_word (g.ctr (ctr_len + 3))

/-- The `struct targ` of the source (the back pointer `g` and the thread
identity carry no data the claims depend on). `glob_ctr` is the index of the
slot the pointer designates; `count` is the `uint64_t` progress counter. -/
structure targ where
  used : Int
  completed : Int
  glob_ctr : Nat
  count : Nat
  tic : timeval
  toc : timeval
  me : Int
  affinity : Int
deriving DecidableEq, Repr

/-- The value of `sizeof(g.v.ctr[0])`, the size of a `uint32_t`. -/
def sizeof_ctr_elem : Nat := 4

/-- The value of `sizeof(g.v.ctr)`. -/
def sizeof_ctr : Nat := ctr_len * sizeof_ctr_elem

/-- Modulus of `uint32_t` arithmetic. -/
def U32 : Nat := 2 ^ 32

/-- Modulus of `uint64_t` arithmetic. -/
def U64 : Nat := 2 ^ 64

/-- Conversion of a signed value to `uint64_t`. -/
def to_u64 (x : Int) : Nat := (x % (2 ^ 64 : Int)).toNat

/-! ## Time helpers of `<sys/time.h>` -/

/-- The result of `timerclear`: both fields zero. -/
def timerclear : timeval := { tv_sec := 0, tv_usec := 0 }

/-- The test `timerisset(tvp)`: some field is non-zero. -/
def timerisset (t : timeval) : Bool := t.tv_sec != 0 || t.tv_usec != 0

/-- The test `timercmp(a, b, <)`: compare microseconds when the seconds are
equal, seconds otherwise. -/
def timercmp_lt (a b : timeval) : Bool :=
  if a.tv_sec = b.tv_sec then decide (a.tv_usec < b.tv_usec) else decide (a.tv_sec < b.tv_sec)

/-- The test `timercmp(a, b, >)`. -/
def timercmp_gt (a b : timeval) : Bool :=
  if a.tv_sec = b.tv_sec then decide (a.tv_usec > b.tv_usec) else decide (a.tv_sec > b.tv_sec)

/-- The difference `timersub(a, b, result)`: field-wise difference with one
borrow from the seconds when the microseconds go negative. -/
def timersub (a b : timeval) : timeval :=
  let sec := a.tv_sec - b.tv_sec
  let usec := a.tv_usec - b.tv_usec
  if usec < 0 then { tv_sec := sec - 1, tv_usec := usec + 1000000 }
  else { tv_sec := sec, tv_usec := usec }

/-- Total number of microseconds a `timeval` stands for. -/
def usec_of (t : timeval) : Int := t.tv_sec * 1000000 + t.tv_usec

/-- A `timeval` in normal form: microseconds within one second. -/
def normalised (t : timeval) : Prop := 0 ≤ t.tv_usec ∧ t.tv_usec < 1000000

instance (t : timeval) : Decidable (normalised t) := by
  unfold normalised; infer_instance

/-! ## `main`: option validation (lines 280-295) -/

/-- The values `main` holds once `getopt` has consumed the command line: the
three fields of `g` set by options and the three locals. -/
structure Parsed where
  cpus : Int
  nthreads : Int
  m_cycles : Int
  affinity : Int
  align : Int
  report_interval : Int
deriving DecidableEq, Repr

/-- The option values `main` starts from (lines 238-247). -/
def default_parsed : Parsed :=
  { cpus := 1, nthreads := 1, m_cycles := 400, affinity := 0, align := 0, report_interval := 500 }

/-- The function `usage`: prints the help text and calls `exit(0)`. The
process ends with the status carried by `Except.error`. -/
def usage {α : Type} : Except Int α := Except.error 0

/-- The bound `sizeof(g.v.ctr) / g.nthreads*sizeof(g.v.ctr[0])` of line 291.
Division and multiplication associate to the left, so the quotient is taken
first and then multiplied by the element size. `nthreads` is at least 1
here. -/
def align_max (nthreads : Int) : Int :=
  Int.ofNat (sizeof_ctr / nthreads.toNat * sizeof_ctr_elem)

/-- Lines 280-295 of `main`, with `ncpus` the value of `system_ncpus()`:
reject a bad processor count through `usage`, substitute the detected count
for 0, raise the thread count to 1, clamp the alignment stride. -/
def main_validate (p : Parsed) (ncpus : Int) : Except Int Parsed :=
  if p.cpus < 0 ∨ p.cpus > ncpus then usage
  else
    let cpus := if p.cpus = 0 then ncpus else p.cpus
    let nthreads := if p.nthreads < 1 then 1 else p.nthreads
    let i := align_max nthreads
    let align := if p.align < 0 ∨ p.align > i then i else p.align
    Except.ok { p with cpus := cpus, nthreads := nthreads, align := align }

/-! ## `main`: the spawn loop (lines 307-321) -/

/-- Index of the slot `&g.v.ctr[(i*align)/sizeof(g.v.ctr[0])]` of line 314.
The product is formed in `int` and is non-negative for the values the loop
supplies. -/
def slot_index (i align : Int) : Nat := (i * align).toNat / sizeof_ctr_elem

/-- The index computed at line 314 for worker `i` designates an element of
`g.v.ctr`: the product is not negative (a negative `int` converts to a huge
`size_t`) and the quotient is below the length of the array. -/
def in_block (i align : Int) : Prop := 0 ≤ i * align ∧ slot_index i align < ctr_len

/-- The expression `affinity ? (affinity*i) % g.cpus : -1` of line 316. The
product is an `int` product, reduced by `int_wrap`; the C remainder truncates
toward zero, which is `Int.tmod`. -/
def affinity_target (affinity i cpus : Int) : Int :=
  if affinity ≠ 0 then Int.tmod (int_wrap (affinity * i)) cpus else -1

/-- The handle as the spawn loop fills it in before `pthread_create`
(lines 309-316). -/
def spawn_handle (p : Parsed) (i : Int) : targ :=
  { used := 1
    completed := 0
    glob_ctr := slot_index i p.align
    count := 0
    tic := timerclear
    toc := timerclear
    me := i
    affinity := affinity_target p.affinity i p.cpus }

/-- One pass of the spawn loop for index `i`, where `rc` is what
`pthread_create` returned: the flag `used` is reset only when `rc` is -1
(line 317). -/
def spawn_one (p : Parsed) (rc : Int) (i : Int) : targ :=
  let t := spawn_handle p i
  if rc = -1 then { t with used := 0 } else t

/-- The spawn loop from index `i` with `n` passes to go. `create i` is the
result of the call of `pthread_create` made for index `i`. The second
component lists the indices for which the call was made. -/
def spawn_from (p : Parsed) (create : Nat → Int) : Nat → Nat → List targ × List Nat
  | 0, _ => ([], [])
  | n + 1, i =>
    let t := spawn_one p (create i) (i : Int)
    let r := spawn_from p create n (i + 1)
    (t :: r.1, i :: r.2)

/-- The spawn loop `for (i = 0; i < g.nthreads; i++)`. -/
def main_spawn (p : Parsed) (create : Nat → Int) : List targ × List Nat :=
  spawn_from p create p.nthreads.toNat 0

/-- The function `main` from validation to the end of the spawn loop: either
the process has exited with a status, or the handles and the indices for
which `pthread_create` was called. -/
def main_startup (p : Parsed) (ncpus : Int) (create : Nat → Int) :
    Except Int (List targ × List Nat) :=
  match main_validate p ncpus with
  | Except.error status => Except.error status
  | Except.ok v => Except.ok (main_spawn v create)

/-! ## The worker: `setaffinity` and `td_body` -/

/-- The function `setaffinity(me, i)`, with `np` the value returned by
`pthread_setaffinity_np`: 0 without any call for the sentinel -1, 1 when the
platform refuses, 0 otherwise. -/
def setaffinity (i : Int) (np : Int) : Int :=
  if i = -1 then 0 else if np ≠ 0 then 1 else 0

/-- The platform primitive `atomic_add_int(p, v)` on a `u_int`: one
indivisible read-modify-write, reduced modulo `2^32`. -/
def atomic_add_int (old v : Nat) : Nat := (old + v) % U32

/-- Store `v` into word `p` of the memory of `g`. -/
def ctr_store (ctr : Nat → Nat) (p v : Nat) : Nat → Nat :=
  fun j => if j = p then v else ctr j

/-- A counted `for` loop whose body leaves the loop variable alone: `n`
passes of `body`. -/
def for_loop {σ : Type} (body : σ → σ) : Nat → σ → σ
  | 0, s => s
  | n + 1, s => for_loop body n (body s)

/-- The body of the inner loop (lines 195-198) on the pair of the global and
the handle: the privileged instruction pair touches no memory, then one atomic
add on the word `glob_ctr` points to and one increment of the private
`uint64_t` counter. When the pointer is just behind the block, the word
added to is `g.m_cycles`. -/
def hot_iter (s : glob_arg × targ) : glob_arg × targ :=
  ({ ctr := ctr_store s.1.ctr s.2.glob_ctr (atomic_add_int (s.1.ctr s.2.glob_ctr) 1) },
   { s.2 with count := (s.2.count + 1) % U64 })

/-- The inner loop `for (i = 0; i < 1000000; i++)`. -/
def inner_loop (s : glob_arg × targ) : glob_arg × targ :=
  for_loop hot_iter 1000000 s

/-- A `for` loop that counts `m` up by one per pass and evaluates its test on
the current state before every pass; `fuel` bounds the number of passes. -/
def while_loop {σ : Type} (test : Int → σ → Bool) (body : σ → σ) : Nat → Int → σ → σ
  | 0, _, s => s
  | fuel + 1, m, s => if test m s then while_loop test body fuel (m + 1) (body s) else s

/-- The test `m < targ->g->m_cycles` of the outer loop, which reads
`g.m_cycles` anew before every pass. -/
def outer_test (m : Int) (s : glob_arg × targ) : Bool := decide (m < s.1.m_cycles)

/-- The outer loop `for (m = 0; m < targ->g->m_cycles; m++)`, each pass one
run of the inner loop. An `int` is below `2^31`, so the test fails at the
latest for `m = 2^31 - 1` and the `2^31` passes of fuel are never used up. -/
def outer_loop (s : glob_arg × targ) : glob_arg × targ :=
  while_loop outer_test inner_loop 2147483648 0 s

/-- What the platform hands one run of `td_body`: the result of
`pthread_setaffinity_np` and the two readings of `gettimeofday`. -/
structure WorkerEnv where
  np : Int
  start : timeval
  finish : timeval
deriving DecidableEq, Repr

/-- The function `td_body` run to its return on handle `t`. -/
def td_body (e : WorkerEnv) (g : glob_arg) (t : targ) : glob_arg × targ :=
  if setaffinity t.affinity e.np ≠ 0 then
    (g, { t with used := 0 })
  else
    let r := outer_loop (g, { t with tic := e.start })
    (r.1, { r.2 with toc := e.finish, completed := 1, used := 0 })

/-! ## Interleaved execution of the hot loops -/

/-- One scheduling step: worker `w` executes one pass of its inner loop body
on the shared block. -/
def sched_step (g : glob_arg) (ta : List targ) (w : Nat) : glob_arg × List targ :=
  match ta.get? w with
  | none => (g, ta)
  | some t =>
    let r := hot_iter (g, t)
    (r.1, ta.set w r.2)

/-- Run a schedule: the list gives, in order, which worker performs the next
pass. -/
def run_schedule : List Nat → glob_arg → List targ → glob_arg × List targ
  | [], g, ta => (g, ta)
  | w :: ws, g, ta =>
    let r := sched_step g ta w
    run_schedule ws r.1 r.2

/-- A schedule in which each of the workers `0 .. R-1` performs exactly `K`
passes and nobody else runs. -/
def is_schedule (R K : Nat) (s : List Nat) : Prop :=
  (∀ w ∈ s, w < R) ∧ ∀ w, w < R → s.count w = K

/-- The round-robin schedule: `K` rounds, each running workers `0 .. R-1` in
order. -/
def round_robin (R : Nat) : Nat → List Nat
  | 0 => []
  | K + 1 => List.range R ++ round_robin R K

/-! ## Threads run to completion and joined -/

/-- The thread of one handle from creation to join, without cancellation:
`td_body` runs when `pthread_create` returned 0, and nothing runs
otherwise. -/
def run_thread (rc : Int) (e : WorkerEnv) (g : glob_arg) (t : targ) : glob_arg × targ :=
  if rc = 0 then td_body e g t else (g, t)

/-- All threads from index `i` on run to their return, one after the other.
A handle is written by its own thread only; as long as every handle points
into the counter block, the words the threads share are only ever added to
and never read by them, so the handles after all joins do not depend on the
interleaving. -/
def run_all (create : Nat → Int) (env : Nat → WorkerEnv) :
    Nat → glob_arg → List targ → glob_arg × List targ
  | _, g, [] => (g, [])
  | i, g, t :: ts =>
    let r := run_thread (create i) (env i) g t
    let rs := run_all create env (i + 1) r.1 ts
    (rs.1, r.2 :: rs.2)

/-- The global `g` as `main` holds it when the spawn loop starts: zeroed
counters (`bzero`), then the words of the validated options and of the
privilege flag. -/
def glob_of (p : Parsed) (privs : Int) : glob_arg :=
  { ctr := fun j =>
      if j = ctr_len then word_of_int p.m_cycles
      else if j = ctr_len + 1 then word_of_int p.nthreads
      else if j = ctr_len + 2 then word_of_int p.cpus
      else if j = ctr_len + 3 then word_of_int privs
      else 0 }

/-! ## `main`: the monitoring loop (lines 330-356) -/

/-- What one pass of the monitoring loop reads: the clock after the sleep and
the handles as they are at that moment. -/
structure Tick where
  now : timeval
  ta : List targ
deriving DecidableEq, Repr

/-- The variables that live across passes of the monitoring loop. -/
structure MonState where
  toc : timeval
  prev : Nat
deriving DecidableEq, Repr

/-- The sum `my_count` of lines 341-343, in `uint64_t`. -/
def sum_counts (ta : List targ) : Nat :=
  ta.foldl (fun acc t => (acc + t.count) % U64) 0

/-- The counter `done` of lines 344-345. -/
def count_done (ta : List targ) : Int :=
  ta.foldl (fun d t => if t.used = 0 then d + 1 else d) 0

/-- One pass of the monitoring loop. `timersub(&now, &toc, &toc)` overwrites
`toc` with the time since the stored value; below 10000 microseconds the pass
ends with `continue`, leaving that difference in `toc`. Otherwise the rate is
printed (the second component holds the printed number), the baselines are
updated, and the third component tells whether the loop breaks. -/
def monitor_pass (nthreads : Int) (s : MonState) (k : Tick) : MonState × Option Nat × Bool :=
  let toc := timersub k.now s.toc
  let my_count := sum_counts k.ta
  let done := count_done k.ta
  let pps := to_u64 (toc.tv_sec * 1000000 + toc.tv_usec)
  if pps < 10000 then
    ({ toc := toc, prev := s.prev }, none, false)
  else
    let rate := ((my_count + U64 - s.prev) % U64 * 1000000) % U64 / pps
    ({ toc := k.now, prev := my_count }, some (rate / 1000000), decide (done = nthreads))

/-- The monitoring loop over the passes it gets to make: one entry per pass,
`some r` when a rate line was printed and `none` when the pass was skipped.
The loop stops at the pass that breaks. -/
def monitor (nthreads : Int) : MonState → List Tick → List (Option Nat)
  | _, [] => []
  | s, k :: ks =>
    let r := monitor_pass nthreads s k
    r.2.1 :: (if r.2.2 then [] else monitor nthreads r.1 ks)

/-- The monitoring loop entered at clock reading `t0` (line 330), with
`prev = 0`. -/
def main_monitor (nthreads : Int) (t0 : timeval) (ks : List Tick) : List (Option Nat) :=
  monitor nthreads { toc := t0, prev := 0 } ks

/-! ## `main`: the drain loop and the final report (lines 358-380) -/

/-- The variables the drain loop accumulates into. -/
structure DrainState where
  count : Nat
  tic : timeval
  toc : timeval
deriving DecidableEq, Repr

/-- One pass of the drain loop after `pthread_join` returned for the handle:
a handle that did not complete is skipped; otherwise its count is added in
`uint64_t` and the earliest start and latest end are kept. -/
def drain_step (d : DrainState) (t : targ) : DrainState :=
  if t.completed = 0 then d
  else
    { count := (d.count + t.count) % U64
      tic := if !timerisset d.tic || timercmp_lt t.tic d.tic then t.tic else d.tic
      toc := if !timerisset d.toc || timercmp_gt t.toc d.toc then t.toc else d.toc }

/-- The drain loop, started from `count = 0` and cleared `tic`, `toc`. -/
def main_drain (ta : List targ) : DrainState :=
  ta.foldl drain_step { count := 0, tic := timerclear, toc := timerclear }

/-- The value `timersub(&toc, &tic, &toc)` of line 378: the elapsed time as a
`timeval`, from which the printed `delta_t` is formed. -/
def main_elapsed (d : DrainState) : timeval := timersub d.toc d.tic

/-- The handles that completed. -/
def completed_of (ta : List targ) : List targ := ta.filter (fun t => t.completed != 0)

/-- A completed handle as the drain loop expects it: both timestamps set,
both in normal form, and the start not after the end. -/
def stamped (t : targ) : Prop :=
  timerisset t.tic = true ∧ timerisset t.toc = true ∧ normalised t.tic ∧ normalised t.toc
    ∧ usec_of t.tic ≤ usec_of t.toc

instance (t : targ) : Decidable (stamped t) := by
  unfold stamped; infer_instance

/-- The relation between the completed handles `S` the drain loop has passed
and its variables: cleared while `S` is empty, afterwards the earliest start
and the latest end among `S`. -/
def drain_inv (S : List targ) (d : DrainState) : Prop :=
  (S = [] → d.tic = timerclear ∧ d.toc = timerclear)
  ∧ (S ≠ [] →
      (∃ a ∈ S, d.tic = a.tic ∧ ∀ t ∈ S, usec_of a.tic ≤ usec_of t.tic)
      ∧ (∃ b ∈ S, d.toc = b.toc ∧ ∀ t ∈ S, usec_of t.toc ≤ usec_of b.toc))

/-! ## Validation and slot assignment -/

/-- The truncated remainder of a negated dividend is the negated remainder. -/
theorem tmod_neg_left (a b : Int) : Int.tmod (-a) b = -(Int.tmod a b) := by
  rw [Int.tmod_def, Int.tmod_def, Int.neg_tdiv]
  ring

/-- The clamp bound never exceeds the byte size of the block times the
element size. -/
theorem align_max_le (n : Int) : 0 ≤ align_max n ∧ align_max n ≤ 16384 := by
  unfold align_max sizeof_ctr ctr_len sizeof_ctr_elem
  constructor
  · exact Int.ofNat_nonneg _
  · have h : 1024 * 4 / n.toNat ≤ 1024 * 4 := Nat.div_le_self _ _
    have h2 : 1024 * 4 / n.toNat * 4 ≤ 16384 := by omega
    have h3 : ((1024 * 4 / n.toNat * 4 : Nat) : Int) ≤ 16384 := by exact_mod_cast h2
    exact h3

/-- Claim C1: with two threads and a requested stride of 8192 bytes, validation
keeps the stride (the bound of line 291 is 8192) and the spawn loop assigns
worker 1 the slot index 2048, which is not below the 1024 elements of the
counter block. -/
theorem C1_slot_outside_block :
    main_validate { default_parsed with nthreads := 2, align := 8192 } 1
      = Except.ok { default_parsed with nthreads := 2, align := 8192 }
    ∧ align_max 2 = 8192
    ∧ ((main_spawn { default_parsed with nthreads := 2, align := 8192 } (fun _ => 0)).1.map
        targ.glob_ctr) = [0, 2048]
    ∧ ¬ slot_index 1 8192 < ctr_len := by
  refine ⟨by rfl, by decide, by decide, by decide⟩

/-- Claim C4 (as stated, refuted): with 5 processors requested and 4 detected, the
process does not end with a non-zero status. -/
theorem C4_counterexample :
    ¬ ∃ status : Int, status ≠ 0 ∧
      main_startup { default_parsed with cpus := 5 } 4 (fun _ => 0) = Except.error status := by
  rintro ⟨status, hne, h⟩
  have h0 : main_startup { default_parsed with cpus := 5 } 4 (fun _ => 0) = Except.error 0 := by
    rfl
  rw [h0] at h
  injection h with h
  exact hne h.symm

/-- Claim C4 (amended): for every requested processor count above the detected
count, `main` ends through `usage` with exit status 0 before the spawn loop,
so no handle is filled in and `pthread_create` is never called. -/
theorem C4_usage_exit_zero (p : Parsed) (ncpus : Int) (create : Nat → Int)
    (h : p.cpus > ncpus) :
    main_startup p ncpus create = Except.error 0 := by
  simp [main_startup, main_validate, usage, h]

/-- Claim C4 witness: 5 processors requested, 4 detected. -/
theorem C4_usage_exit_zero_witness :
    main_startup { default_parsed with cpus := 5 } 4 (fun _ => 0) = Except.error 0 :=
  C4_usage_exit_zero _ 4 _ (by decide)

/-- Claim C8: whenever validation does not exit, with a detected processor count
`D ≥ 1`, the effective thread count is 1 for a request below 1 and the request
otherwise, the effective processor count is `D` for a request of 0 and the
request otherwise, and so `nthreads ≥ 1` and `1 ≤ cpus ≤ D`. -/
theorem C8_validated_well_formed (p v : Parsed) (D : Int) (hD : 1 ≤ D)
    (hv : main_validate p D = Except.ok v) :
    v.nthreads = (if p.nthreads < 1 then 1 else p.nthreads)
    ∧ v.cpus = (if p.cpus = 0 then D else p.cpus)
    ∧ 1 ≤ v.nthreads ∧ 1 ≤ v.cpus ∧ v.cpus ≤ D := by
  unfold main_validate usage at hv
  split at hv
  · cases hv
  · rename_i hc
    injection hv with hv
    subst hv
    push_neg at hc
    refine ⟨rfl, rfl, ?_, ?_, ?_⟩
    · show 1 ≤ (if p.nthreads < 1 then 1 else p.nthreads)
      split <;> omega
    · show 1 ≤ (if p.cpus = 0 then D else p.cpus)
      split <;> omega
    · show (if p.cpus = 0 then D else p.cpus) ≤ D
      split <;> omega

/-- Claim C8 witness: thread count 0 and processor count 0 with 4 detected. -/
theorem C8_validated_well_formed_witness :
    ({ default_parsed with cpus := 4 } : Parsed).nthreads = (if (0 : Int) < 1 then 1 else 0)
    ∧ ({ default_parsed with cpus := 4 } : Parsed).cpus = (if (0 : Int) = 0 then 4 else 0)
    ∧ 1 ≤ ({ default_parsed with cpus := 4 } : Parsed).nthreads
    ∧ 1 ≤ ({ default_parsed with cpus := 4 } : Parsed).cpus
    ∧ ({ default_parsed with cpus := 4 } : Parsed).cpus ≤ 4 :=
  C8_validated_well_formed { default_parsed with cpus := 0, nthreads := 0 }
    { default_parsed with cpus := 4 } 4 (by decide) (by rfl)

/-! ## Affinity mapping -/

/-- On representable values `int_wrap` is the identity. -/
theorem int_wrap_of_range (x : Int) (h1 : -2 ^ 31 ≤ x) (h2 : x < 2 ^ 31) : int_wrap x = x := by
  unfold int_wrap
  omega

/-- Claim C7 (as stated, refuted): stride -1, worker 1, 4 processors gives the
target -1, which is the unbound sentinel and not a processor id in 0..3; and
stride 2147483647, worker 2, 3 processors, where the `int` product is not
representable, gives the target -2, not a processor id in 0..2. -/
theorem C7_counterexample :
    affinity_target (-1) 1 4 = -1
    ∧ ¬ (0 ≤ affinity_target (-1) 1 4 ∧ affinity_target (-1) 1 4 < 4)
    ∧ affinity_target 2147483647 2 3 = -2
    ∧ ¬ (0 ≤ affinity_target 2147483647 2 3 ∧ affinity_target 2147483647 2 3 < 3) := by
  decide

/-- Claim C7 (amended): for worker index `i ≥ 0`, processor count `C ≥ 1` and a
stride whose product `stride * i` is representable in `int`, stride 0 gives
the sentinel -1; a positive stride gives `(stride * i) mod C`, which lies in
`0 .. C-1`; a negative stride gives the truncated remainder, which lies in
`-(C-1) .. 0`. -/
theorem C7_affinity_target (stride i C : Int) (hi : 0 ≤ i) (hC : 1 ≤ C)
    (hrep : -2 ^ 31 ≤ stride * i ∧ stride * i < 2 ^ 31) :
    (stride = 0 → affinity_target stride i C = -1)
    ∧ (0 < stride → affinity_target stride i C = (stride * i) % C
        ∧ 0 ≤ affinity_target stride i C ∧ affinity_target stride i C < C)
    ∧ (stride < 0 → affinity_target stride i C = -((-(stride * i)) % C)
        ∧ -C < affinity_target stride i C ∧ affinity_target stride i C ≤ 0) := by
  have hC0 : 0 ≤ C := by omega
  have hCpos : 0 < C := by omega
  have hw : int_wrap (stride * i) = stride * i := int_wrap_of_range _ hrep.1 hrep.2
  refine ⟨?_, ?_, ?_⟩
  · intro h
    simp [affinity_target, h]
  · intro h
    have hne : stride ≠ 0 := by omega
    have hprod : 0 ≤ stride * i := mul_nonneg (le_of_lt h) hi
    have e : affinity_target stride i C = (stride * i) % C := by
      simp only [affinity_target, if_pos hne]
      rw [hw]
      exact Int.tmod_eq_emod hprod hC0
    refine ⟨e, ?_, ?_⟩
    · rw [e]; exact Int.emod_nonneg _ (by omega)
    · rw [e]; exact Int.emod_lt_of_pos _ hCpos
  · intro h
    have hne : stride ≠ 0 := by omega
    have hprod : 0 ≤ -(stride * i) := by
      have : stride * i ≤ 0 := mul_nonpos_of_nonpos_of_nonneg (le_of_lt h) hi
      omega
    have e : affinity_target stride i C = -((-(stride * i)) % C) := by
      simp only [affinity_target, if_pos hne]
      rw [hw]
      have h1 : Int.tmod (stride * i) C = -(Int.tmod (-(stride * i)) C) := by
        rw [tmod_neg_left, neg_neg]
      rw [h1, Int.tmod_eq_emod hprod hC0]
    refine ⟨e, ?_, ?_⟩
    · rw [e]
      have := Int.emod_lt_of_pos (-(stride * i)) hCpos
      omega
    · rw [e]
      have := Int.emod_nonneg (-(stride * i)) (show C ≠ 0 by omega)
      omega

/-- Claim C7 witness: stride 3, worker 5, 4 processors. -/
theorem C7_affinity_target_witness :
    0 ≤ affinity_target 3 5 4 ∧ affinity_target 3 5 4 < 4 :=
  ((C7_affinity_target 3 5 4 (by decide) (by decide) (by decide)).2.1 (by decide)).2

/-! ## The worker -/

/-- One more pass of a counted loop. -/
theorem for_loop_succ {σ : Type} (body : σ → σ) (n : Nat) (s : σ) :
    for_loop body (n + 1) s = for_loop body n (body s) := rfl

/-- No pass of a counted loop. -/
theorem for_loop_zero {σ : Type} (body : σ → σ) (s : σ) : for_loop body 0 s = s := rfl

/-- A property every pass of the body keeps is kept by the loop. -/
theorem for_loop_keeps {σ : Type} (body : σ → σ) (P : σ → Prop)
    (hP : ∀ s, P s → P (body s)) (n : Nat) (s : σ) (h : P s) : P (for_loop body n s) := by
  induction n generalizing s with
  | zero => exact h
  | succ n ih => rw [for_loop_succ]; exact ih _ (hP _ h)

/-- One more unit of fuel of a tested loop. -/
theorem while_loop_succ {σ : Type} (test : Int → σ → Bool) (body : σ → σ) (fuel : Nat)
    (m : Int) (s : σ) :
    while_loop test body (fuel + 1) m s
      = if test m s then while_loop test body fuel (m + 1) (body s) else s := rfl

/-- A tested loop without fuel. -/
theorem while_loop_zero {σ : Type} (test : Int → σ → Bool) (body : σ → σ) (m : Int) (s : σ) :
    while_loop test body 0 m s = s := rfl

/-- A property every pass of the body keeps is kept by the tested loop. -/
theorem while_loop_keeps {σ : Type} (test : Int → σ → Bool) (body : σ → σ) (P : σ → Prop)
    (hP : ∀ s, P s → P (body s)) (fuel : Nat) (m : Int) (s : σ) (h : P s) :
    P (while_loop test body fuel m s) := by
  induction fuel generalizing m s with
  | zero => exact h
  | succ n ih =>
    rw [while_loop_succ]
    split
    · exact ih _ _ (hP _ h)
    · exact h

/-- When the test fails from `B` on, fuel that reaches `B` is never used up:
one more unit changes nothing. -/
theorem while_loop_fuel {σ : Type} (test : Int → σ → Bool) (body : σ → σ) (B : Int)
    (htest : ∀ m s, B ≤ m → test m s = false) (fuel : Nat) (m : Int) (s : σ)
    (h : B ≤ m + fuel) :
    while_loop test body (fuel + 1) m s = while_loop test body fuel m s := by
  induction fuel generalizing m s with
  | zero =>
    have hm : B ≤ m := by simpa using h
    rw [while_loop_succ, htest m s hm, while_loop_zero]
    rfl
  | succ n ih =>
    rw [while_loop_succ test body (n + 1) m s, while_loop_succ test body n m s]
    have h2 : B ≤ m + 1 + (n : Int) := by
      push_cast at h
      omega
    rw [ih (m + 1) (body s) h2]

/-- A word read as an `int` is in the `int` range. -/
theorem int_of_word_range (w : Nat) : -2 ^ 31 ≤ int_of_word w ∧ int_of_word w < 2 ^ 31 := by
  unfold int_of_word
  simp only [Int.ofNat_eq_coe]
  split <;> omega

/-- Storing a representable `int` and reading it back gives it again. -/
theorem int_of_word_of_int (x : Int) (h1 : -2 ^ 31 ≤ x) (h2 : x < 2 ^ 31) :
    int_of_word (word_of_int x) = x := by
  unfold int_of_word word_of_int
  simp only [Int.ofNat_eq_coe]
  split <;> omega

/-- The test of the outer loop fails once `m` has reached the largest
`int`. -/
theorem outer_test_false (m : Int) (s : glob_arg × targ) (h : 2147483647 ≤ m) :
    outer_test m s = false := by
  unfold outer_test
  have := (int_of_word_range (s.1.ctr ctr_len)).2
  unfold glob_arg.m_cycles
  simp only [decide_eq_false_iff_not, not_lt]
  omega

/-- The outer loop leaves through its test: any further fuel gives the same
result. -/
theorem outer_loop_total (k : Nat) (s : glob_arg × targ) :
    while_loop outer_test inner_loop (2147483648 + k) 0 s = outer_loop s := by
  induction k with
  | zero => rfl
  | succ k ih =>
    rw [← ih]
    exact while_loop_fuel outer_test inner_loop 2147483647 outer_test_false (2147483648 + k) 0 s
      (by push_cast; omega)

/-- Passes of the hot loop body change only the private counter of the
handle, which advances by the number of passes modulo `2^64`. -/
theorem hot_passes_targ (n : Nat) (s : glob_arg × targ) (h : s.2.count < U64) :
    (for_loop hot_iter n s).2 = { s.2 with count := (s.2.count + n) % U64 } := by
  induction n generalizing s with
  | zero =>
    rw [for_loop_zero, Nat.add_zero, Nat.mod_eq_of_lt h]
  | succ n ih =>
    have hlt : (hot_iter s).2.count < U64 := Nat.mod_lt _ (by decide)
    rw [for_loop_succ, ih _ hlt]
    show ({ s.2 with count := ((s.2.count + 1) % U64 + n) % U64 } : targ) = _
    have e : ((s.2.count + 1) % U64 + n) % U64 = (s.2.count + (n + 1)) % U64 := by
      unfold U64; omega
    rw [e]

/-- Passes of the hot loop body leave the pointer of the handle alone. -/
theorem hot_passes_slot (n : Nat) (s : glob_arg × targ) :
    (for_loop hot_iter n s).2.glob_ctr = s.2.glob_ctr :=
  for_loop_keeps hot_iter (fun r => r.2.glob_ctr = s.2.glob_ctr) (fun _ h => h) n s rfl

/-- Passes of the hot loop body write no word but the one pointed to. -/
theorem hot_passes_other (n : Nat) (s : glob_arg × targ) (q : Nat) (hq : q ≠ s.2.glob_ctr) :
    (for_loop hot_iter n s).1.ctr q = s.1.ctr q := by
  induction n generalizing s with
  | zero => rfl
  | succ n ih =>
    rw [for_loop_succ, ih (hot_iter s) hq]
    show ctr_store s.1.ctr s.2.glob_ctr (atomic_add_int (s.1.ctr s.2.glob_ctr) 1) q = _
    unfold ctr_store
    rw [if_neg hq]

/-- Passes of the hot loop body add their number to the word pointed to,
modulo `2^32`. -/
theorem hot_passes_word (n : Nat) (s : glob_arg × targ) (h : s.1.ctr s.2.glob_ctr < U32) :
    (for_loop hot_iter n s).1.ctr s.2.glob_ctr = (s.1.ctr s.2.glob_ctr + n) % U32 := by
  induction n generalizing s with
  | zero =>
    rw [for_loop_zero, Nat.add_zero, Nat.mod_eq_of_lt h]
  | succ n ih =>
    have e1 : (hot_iter s).1.ctr s.2.glob_ctr = (s.1.ctr s.2.glob_ctr + 1) % U32 := by
      show ctr_store s.1.ctr s.2.glob_ctr (atomic_add_int (s.1.ctr s.2.glob_ctr) 1)
        s.2.glob_ctr = _
      unfold ctr_store atomic_add_int
      rw [if_pos rfl]
    have hlt : (hot_iter s).1.ctr (hot_iter s).2.glob_ctr < U32 := by
      show (hot_iter s).1.ctr s.2.glob_ctr < U32
      rw [e1]
      exact Nat.mod_lt _ (by decide)
    rw [for_loop_succ]
    have := ih (hot_iter s) hlt
    have hs : (hot_iter s).2.glob_ctr = s.2.glob_ctr := rfl
    rw [hs] at this
    rw [this, e1]
    unfold U32
    omega

/-- The inner loop is one million passes of the hot loop body. -/
theorem inner_loop_eq (s : glob_arg × targ) : inner_loop s = for_loop hot_iter 1000000 s := rfl

/-- The inner loop adds one million to the private counter modulo `2^64`. -/
theorem inner_loop_targ (s : glob_arg × targ) (h : s.2.count < U64) :
    (inner_loop s).2 = { s.2 with count := (s.2.count + 1000000) % U64 } := by
  rw [inner_loop_eq]
  exact hot_passes_targ 1000000 s h

/-- The inner loop leaves the pointer of the handle alone. -/
theorem inner_loop_slot (s : glob_arg × targ) : (inner_loop s).2.glob_ctr = s.2.glob_ctr := by
  rw [inner_loop_eq]
  exact hot_passes_slot 1000000 s

/-- The inner loop adds one million to the word pointed to, modulo `2^32`. -/
theorem inner_loop_word (s : glob_arg × targ) (h : s.1.ctr s.2.glob_ctr < U32) :
    (inner_loop s).1.ctr s.2.glob_ctr = (s.1.ctr s.2.glob_ctr + 1000000) % U32 := by
  rw [inner_loop_eq]
  exact hot_passes_word 1000000 s h

/-- The inner loop of a handle that does not point at `g.m_cycles` leaves the
cycle budget alone. -/
theorem inner_loop_glob (s : glob_arg × targ) (h : s.2.glob_ctr ≠ ctr_len) :
    (inner_loop s).1.m_cycles = s.1.m_cycles := by
  unfold glob_arg.m_cycles
  rw [inner_loop_eq, hot_passes_other 1000000 s ctr_len (fun e => h e.symm)]

/-- The outer loop of a handle that does not point at `g.m_cycles`: with
fuel for the passes still due, the private counter advances by one million
per pass modulo `2^64` and the cycle budget is left alone. -/
theorem outer_passes_inblock (fuel : Nat) (m : Int) (s : glob_arg × targ)
    (hslot : s.2.glob_ctr ≠ ctr_len) (hc : s.2.count < U64)
    (hf : (s.1.m_cycles - m).toNat ≤ fuel) :
    (while_loop outer_test inner_loop fuel m s).2
      = { s.2 with count := (s.2.count + (s.1.m_cycles - m).toNat * 1000000) % U64 }
    ∧ (while_loop outer_test inner_loop fuel m s).1.m_cycles = s.1.m_cycles := by
  induction fuel generalizing m s with
  | zero =>
    have h0 : (s.1.m_cycles - m).toNat = 0 := by omega
    rw [while_loop_zero, h0, Nat.zero_mul, Nat.add_zero, Nat.mod_eq_of_lt hc]
    exact ⟨rfl, rfl⟩
  | succ n ih =>
    rw [while_loop_succ]
    by_cases ht : m < s.1.m_cycles
    · have e0 : outer_test m s = true := by
        unfold outer_test
        exact decide_eq_true ht
      rw [e0, if_pos rfl]
      have hg : (inner_loop s).1.m_cycles = s.1.m_cycles := inner_loop_glob s hslot
      have hslot2 : (inner_loop s).2.glob_ctr ≠ ctr_len := by
        rw [inner_loop_slot]; exact hslot
      have hc2 : (inner_loop s).2.count < U64 := by
        rw [inner_loop_targ s hc]; exact Nat.mod_lt _ (by decide)
      have hf2 : ((inner_loop s).1.m_cycles - (m + 1)).toNat ≤ n := by
        rw [hg]; omega
      obtain ⟨h1, h2⟩ := ih (m + 1) (inner_loop s) hslot2 hc2 hf2
      refine ⟨?_, h2.trans hg⟩
      rw [h1, hg, inner_loop_targ s hc]
      show ({ s.2 with count := ((s.2.count + 1000000) % U64
        + (s.1.m_cycles - (m + 1)).toNat * 1000000) % U64 } : targ) = _
      have e : ((s.2.count + 1000000) % U64 + (s.1.m_cycles - (m + 1)).toNat * 1000000) % U64
          = (s.2.count + (s.1.m_cycles - m).toNat * 1000000) % U64 := by
        have hk : (s.1.m_cycles - m).toNat = (s.1.m_cycles - (m + 1)).toNat + 1 := by omega
        rw [hk]
        generalize (s.1.m_cycles - (m + 1)).toNat = k
        unfold U64
        omega
      rw [e]
    · have e0 : outer_test m s = false := by
        unfold outer_test
        exact decide_eq_false ht
      have h0 : (s.1.m_cycles - m).toNat = 0 := by omega
      rw [e0, h0, Nat.zero_mul, Nat.add_zero, Nat.mod_eq_of_lt hc]
      exact ⟨rfl, rfl⟩

/-- The outer loop never lowers the private counter while it cannot wrap. -/
theorem outer_passes_count_ge (fuel : Nat) (m : Int) (s : glob_arg × targ)
    (h : s.2.count + fuel * 1000000 < U64) :
    s.2.count ≤ (while_loop outer_test inner_loop fuel m s).2.count := by
  induction fuel generalizing m s with
  | zero => exact le_refl _
  | succ n ih =>
    rw [while_loop_succ]
    have hc : s.2.count < U64 := by omega
    have e1 : (inner_loop s).2.count = s.2.count + 1000000 := by
      rw [inner_loop_targ s hc]
      show (s.2.count + 1000000) % U64 = _
      apply Nat.mod_eq_of_lt
      omega
    split
    · have := ih (m + 1) (inner_loop s) (by rw [e1]; omega)
      omega
    · exact le_refl _

/-- A worker whose pointer is just behind the block, started with a budget
of 1 and a zero count: the first pass of the inner loop raises `g.m_cycles`
to 1000001, so the outer loop goes on and the count reaches at least two
million. -/
theorem outer_loop_alias (s : glob_arg × targ) (hslot : s.2.glob_ctr = ctr_len)
    (hw : s.1.ctr ctr_len = 1) (hc : s.2.count = 0) :
    2000000 ≤ (outer_loop s).2.count := by
  have hw0 : s.1.ctr s.2.glob_ctr < U32 := by
    rw [hslot, hw]; decide
  have t0 : outer_test 0 s = true := by
    unfold outer_test glob_arg.m_cycles
    rw [hw]
    decide
  have c1 : (inner_loop s).2.count = 1000000 := by
    rw [inner_loop_targ s (by rw [hc]; decide)]
    show (s.2.count + 1000000) % U64 = _
    rw [hc]
    decide
  have w1 : (inner_loop s).1.ctr ctr_len = 1000001 := by
    have := inner_loop_word s hw0
    rw [hslot, hw] at this
    rw [this]
    decide
  have t1 : outer_test (0 + 1) (inner_loop s) = true := by
    unfold outer_test glob_arg.m_cycles
    rw [w1]
    decide
  have c2 : (inner_loop (inner_loop s)).2.count = 2000000 := by
    rw [inner_loop_targ (inner_loop s) (by rw [c1]; decide)]
    show ((inner_loop s).2.count + 1000000) % U64 = _
    rw [c1]
    decide
  have hge := outer_passes_count_ge 2147483646 (0 + 1 + 1) (inner_loop (inner_loop s))
    (by rw [c2]; decide)
  rw [c2] at hge
  show 2000000 ≤ (while_loop outer_test inner_loop (2147483646 + 1 + 1) 0 s).2.count
  rw [while_loop_succ, t0, if_pos rfl, while_loop_succ, t1, if_pos rfl]
  exact hge

/-- The count `td_body` leaves when the bind succeeds is the one the outer
loop leaves. -/
theorem td_body_count (e : WorkerEnv) (g : glob_arg) (t : targ)
    (hb : setaffinity t.affinity e.np = 0) :
    (td_body e g t).2.count = (outer_loop (g, { t with tic := e.start })).2.count := by
  unfold td_body
  rw [if_neg (by simp [hb])]

/-- The handle `td_body` leaves behind when the bind succeeds and the handle
does not point at `g.m_cycles`. -/
theorem td_body_bound (e : WorkerEnv) (g : glob_arg) (t : targ)
    (hb : setaffinity t.affinity e.np = 0) (h : t.count < U64) (hslot : t.glob_ctr ≠ ctr_len) :
    (td_body e g t).2 =
      { t with tic := e.start, toc := e.finish, completed := 1, used := 0,
               count := (t.count + g.m_cycles.toNat * 1000000) % U64 } := by
  have hr := (int_of_word_range (g.ctr ctr_len)).2
  have hf : (g.m_cycles - 0).toNat ≤ 2147483648 := by
    unfold glob_arg.m_cycles
    omega
  have hs := (outer_passes_inblock 2147483648 0 (g, { t with tic := e.start }) hslot h hf).1
  unfold td_body
  rw [if_neg (by simp [hb])]
  show ({ (outer_loop (g, { t with tic := e.start })).2 with
          toc := e.finish, completed := 1, used := 0 } : targ) = _
  unfold outer_loop
  rw [hs]
  simp only [sub_zero]

/-- What `td_body` returns when the bind fails: only `used` is written. -/
theorem td_body_refused (e : WorkerEnv) (g : glob_arg) (t : targ)
    (hb : setaffinity t.affinity e.np ≠ 0) :
    td_body e g t = (g, { t with used := 0 }) := by
  unfold td_body
  rw [if_pos hb]

/-- The function `td_body` on a handle that does not point at `g.m_cycles`
leaves the cycle budget alone. -/
theorem td_body_glob (e : WorkerEnv) (g : glob_arg) (t : targ) (hslot : t.glob_ctr ≠ ctr_len) :
    (td_body e g t).1.m_cycles = g.m_cycles := by
  unfold td_body
  split
  · rfl
  · show (outer_loop (g, { t with tic := e.start })).1.m_cycles = g.m_cycles
    unfold outer_loop
    have := while_loop_keeps outer_test inner_loop
      (fun r => r.2.glob_ctr = t.glob_ctr ∧ r.1.m_cycles = g.m_cycles)
      (fun r hr => ⟨(inner_loop_slot r).trans hr.1,
        (inner_loop_glob r (by rw [hr.1]; exact hslot)).trans hr.2⟩)
      2147483648 0 (g, { t with tic := e.start }) ⟨rfl, rfl⟩
    exact this.2

/-- Claim C9: when `td_body` returns, `used` is 0 on either path; `completed` is 1
when the bind succeeded; when the bind failed the handle keeps its `completed`,
its count and its timestamps and the counter block is untouched; so for a
handle entered with `completed = 0`, as the spawn loop sets it, `completed` is
1 exactly when the bind succeeded. -/
theorem C9_worker_exit_flags (e : WorkerEnv) (g : glob_arg) (t : targ) :
    (td_body e g t).2.used = 0
    ∧ (setaffinity t.affinity e.np = 0 → (td_body e g t).2.completed = 1)
    ∧ (setaffinity t.affinity e.np ≠ 0 →
        (td_body e g t).2.completed = t.completed
        ∧ (td_body e g t).2.count = t.count
        ∧ (td_body e g t).1.ctr = g.ctr
        ∧ (td_body e g t).2.tic = t.tic
        ∧ (td_body e g t).2.toc = t.toc)
    ∧ (t.completed = 0 →
        ((td_body e g t).2.completed = 1 ↔ setaffinity t.affinity e.np = 0)) := by
  by_cases hb : setaffinity t.affinity e.np = 0
  · have h1 : (td_body e g t).2.used = 0 ∧ (td_body e g t).2.completed = 1 := by
      unfold td_body
      rw [if_neg (by simp [hb])]
      exact ⟨rfl, rfl⟩
    refine ⟨h1.1, fun _ => h1.2, fun h => absurd hb h, fun _ => ⟨fun _ => hb, fun _ => h1.2⟩⟩
  · rw [td_body_refused e g t hb]
    refine ⟨rfl, fun h => absurd h hb, fun _ => ⟨rfl, rfl, rfl, rfl, rfl⟩, ?_⟩
    intro h0
    constructor
    · intro h1
      simp only [h0] at h1
      exact absurd h1 (by decide)
    · intro h
      exact absurd h hb

/-- Claim C9 witness: the handle of worker 1 under stride 1 on 4 processors, once
with the bind refused and once with the bind granted, no cycles to run. -/
theorem C9_worker_exit_flags_witness :
    ((td_body { np := 1, start := ⟨5, 0⟩, finish := ⟨6, 0⟩ } (glob_of default_parsed 0)
        (spawn_handle { default_parsed with affinity := 1, cpus := 4 } 1)).2.completed = 1
      ↔ setaffinity (spawn_handle { default_parsed with affinity := 1, cpus := 4 } 1).affinity 1
          = 0)
    ∧ (td_body { np := 0, start := ⟨5, 0⟩, finish := ⟨6, 0⟩ }
        (glob_of { default_parsed with m_cycles := 0 } 0)
        (spawn_handle { default_parsed with affinity := 1, cpus := 4 } 1)).2.used = 0 :=
  ⟨(C9_worker_exit_flags { np := 1, start := ⟨5, 0⟩, finish := ⟨6, 0⟩ } (glob_of default_parsed 0)
      (spawn_handle { default_parsed with affinity := 1, cpus := 4 } 1)).2.2.2 (by decide),
   (C9_worker_exit_flags { np := 0, start := ⟨5, 0⟩, finish := ⟨6, 0⟩ }
      (glob_of { default_parsed with m_cycles := 0 } 0)
      (spawn_handle { default_parsed with affinity := 1, cpus := 4 } 1)).1⟩

/-! ## The spawn loop -/

/-- Claim C10: with two threads requested and `pthread_create` returning the error
number 35 (`EAGAIN`) for index 0, the spawn loop calls `pthread_create` for
both indices but leaves `used` of handle 0 at 1: the test of line 317 compares
the result with -1. -/
theorem C10_failed_create_stays_used :
    ((main_spawn { default_parsed with nthreads := 2 } (fun i => if i = 0 then 35 else 0)).1.map
        targ.used) = [1, 1]
    ∧ (main_spawn { default_parsed with nthreads := 2 } (fun i => if i = 0 then 35 else 0)).2
        = [0, 1]
    ∧ (spawn_one { default_parsed with nthreads := 2 } 35 0).used = 1
    ∧ (spawn_one { default_parsed with nthreads := 2 } (-1) 0).used = 0 := by
  refine ⟨by decide, by decide, by decide, by decide⟩

/-! ## Interleaved increments of one shared slot -/

/-- One scheduling step of a worker that shares slot `p` with all the others
adds one to that slot modulo `2^32` and keeps every handle on the slot. -/
theorem sched_step_shared (p : Nat) (g : glob_arg) (ta : List targ) (w : Nat)
    (hslot : ∀ t ∈ ta, t.glob_ctr = p) (hw : w < ta.length) :
    (sched_step g ta w).1.ctr p = (g.ctr p + 1) % U32
    ∧ (∀ t ∈ (sched_step g ta w).2, t.glob_ctr = p)
    ∧ (sched_step g ta w).2.length = ta.length := by
  unfold sched_step
  cases h : ta.get? w with
  | none =>
    have := List.get?_eq_none.mp h
    omega
  | some t =>
    have ht : t.glob_ctr = p := hslot t (List.get?_mem h)
    refine ⟨?_, ?_, ?_⟩
    · show ctr_store g.ctr t.glob_ctr (atomic_add_int (g.ctr t.glob_ctr) 1) p = _
      rw [ht]
      simp [ctr_store, atomic_add_int]
    · intro u hu
      rcases List.mem_or_eq_of_mem_set hu with h1 | h1
      · exact hslot u h1
      · rw [h1]; exact ht
    · exact List.length_set _ _ _

/-- Whatever the order of the steps, a schedule run by workers that all share
slot `p` adds its length to the slot modulo `2^32`. -/
theorem run_schedule_shared (p : Nat) (s : List Nat) (g : glob_arg) (ta : List targ)
    (hslot : ∀ t ∈ ta, t.glob_ctr = p) (hs : ∀ w ∈ s, w < ta.length) :
    (run_schedule s g ta).1.ctr p = (g.ctr p + s.length) % U32 ∨ (s = [] ∧
      (run_schedule s g ta).1.ctr p = g.ctr p) := by
  induction s generalizing g ta with
  | nil => exact Or.inr ⟨rfl, rfl⟩
  | cons w ws ih =>
    left
    have hw : w < ta.length := hs w (List.mem_cons_self _ _)
    obtain ⟨h1, h2, h3⟩ := sched_step_shared p g ta w hslot hw
    have hs2 : ∀ v ∈ ws, v < (sched_step g ta w).2.length := by
      intro v hv
      rw [h3]
      exact hs v (List.mem_cons_of_mem _ hv)
    show (run_schedule ws (sched_step g ta w).1 (sched_step g ta w).2).1.ctr p = _
    rcases ih (sched_step g ta w).1 (sched_step g ta w).2 h2 hs2 with h | ⟨hnil, h⟩
    · rw [h, h1, List.length_cons]
      unfold U32
      omega
    · rw [h, h1, hnil, List.length_cons, List.length_nil]

/-- A schedule of `R` workers with `K` passes each has `R * K` steps. -/
theorem schedule_length (R K : Nat) (s : List Nat) (h : is_schedule R K s) :
    s.length = R * K := by
  have h1 := @Multiset.sum_count_eq_card Nat _ (Finset.range R) (s : Multiset Nat)
    (by
      intro a ha
      exact Finset.mem_range.mpr (h.1 a (by simpa using ha)))
  simp only [Multiset.coe_count, Multiset.coe_card] at h1
  rw [← h1, Finset.sum_congr rfl (fun a ha => h.2 a (Finset.mem_range.mp ha))]
  simp

/-- The round-robin schedule is a schedule. -/
theorem round_robin_is_schedule (R K : Nat) : is_schedule R K (round_robin R K) := by
  induction K with
  | zero =>
    exact ⟨fun w hw => absurd hw (List.not_mem_nil w), fun w _ => rfl⟩
  | succ K ih =>
    constructor
    · intro w hw
      rcases List.mem_append.mp hw with h | h
      · exact List.mem_range.mp h
      · exact ih.1 w h
    · intro w hw
      show List.count w (List.range R ++ round_robin R K) = K + 1
      rw [List.count_append, ih.2 w hw,
        List.count_eq_one_of_mem (List.nodup_range R) (List.mem_range.mpr hw)]
      omega

/-- The final value of a zeroed shared slot after a complete schedule. -/
theorem shared_slot_final (R K p : Nat) (s : List Nat) (g : glob_arg) (ta : List targ)
    (hlen : ta.length = R) (hslot : ∀ t ∈ ta, t.glob_ctr = p) (h0 : g.ctr p = 0)
    (hs : is_schedule R K s) :
    (run_schedule s g ta).1.ctr p = (R * K) % U32 := by
  have hlt : ∀ w ∈ s, w < ta.length := by
    intro w hw
    rw [hlen]
    exact hs.1 w hw
  rcases run_schedule_shared p s g ta hslot hlt with h | ⟨hnil, h⟩
  · rw [h, h0, schedule_length R K s hs, Nat.zero_add]
  · have hl := schedule_length R K s hs
    rw [hnil, List.length_nil] at hl
    rw [h, h0, ← hl]
    rfl

/-- Claim C3 (as stated, refuted): eleven workers placed on slot 0 by a zero stride,
each making the 400,000,000 increments of the default cycle budget in
round-robin order, leave the 32-bit slot at 105,032,704 and not at
4,400,000,000. -/
theorem C3_counterexample :
    is_schedule 11 400000000 (round_robin 11 400000000)
    ∧ (run_schedule (round_robin 11 400000000) (glob_of default_parsed 0)
        (main_spawn { default_parsed with nthreads := 11 } (fun _ => 0)).1).1.ctr 0 = 105032704
    ∧ (run_schedule (round_robin 11 400000000) (glob_of default_parsed 0)
        (main_spawn { default_parsed with nthreads := 11 } (fun _ => 0)).1).1.ctr 0
        ≠ 11 * 400000000 := by
  have h := shared_slot_final 11 400000000 0 (round_robin 11 400000000)
    (glob_of default_parsed 0)
    (main_spawn { default_parsed with nthreads := 11 } (fun _ => 0)).1
    (by decide) (by decide) rfl (round_robin_is_schedule 11 400000000)
  have e : (11 * 400000000) % U32 = 105032704 := by decide
  rw [e] at h
  refine ⟨round_robin_is_schedule 11 400000000, h, ?_⟩
  rw [h]
  decide

/-- Claim C3 (amended): for `R ≥ 1` workers that share one zeroed 32-bit slot and any
schedule in which each of them makes `K` atomic increments, the final value of
the slot is `R * K` modulo `2^32`; it is `R * K` itself whenever that is below
`2^32`. -/
theorem C3_shared_counter (R K p : Nat) (s : List Nat) (g : glob_arg) (ta : List targ)
    (_hR : 1 ≤ R) (hlen : ta.length = R) (hslot : ∀ t ∈ ta, t.glob_ctr = p)
    (h0 : g.ctr p = 0) (hs : is_schedule R K s) :
    (run_schedule s g ta).1.ctr p = (R * K) % U32
    ∧ (R * K < U32 → (run_schedule s g ta).1.ctr p = R * K) := by
  have h := shared_slot_final R K p s g ta hlen hslot h0 hs
  exact ⟨h, fun hlt => by rw [h, Nat.mod_eq_of_lt hlt]⟩

/-- Claim C3 witness: two workers on slot 0, three increments each, in the order
0, 1, 1, 0, 0, 1. -/
theorem C3_shared_counter_witness :
    (run_schedule [0, 1, 1, 0, 0, 1] (glob_of default_parsed 0)
      (main_spawn { default_parsed with nthreads := 2 } (fun _ => 0)).1).1.ctr 0 = 2 * 3 :=
  (C3_shared_counter 2 3 0 [0, 1, 1, 0, 0, 1] (glob_of default_parsed 0)
    (main_spawn { default_parsed with nthreads := 2 } (fun _ => 0)).1
    (by decide) (by decide) (by decide) rfl
    ⟨by decide, by decide⟩).2 (by decide)

/-! ## Total work -/

/-- A completed handle at the head stays in the list of completed handles. -/
theorem completed_of_cons_pos (t : targ) (ts : List targ) (h : t.completed ≠ 0) :
    completed_of (t :: ts) = t :: completed_of ts := by
  simp [completed_of, h]

/-- A handle that did not complete is dropped. -/
theorem completed_of_cons_zero (t : targ) (ts : List targ) (h : t.completed = 0) :
    completed_of (t :: ts) = completed_of ts := by
  simp [completed_of, h]

/-- A handle fresh from the spawn loop has a zero count. -/
theorem spawn_handle_count (p : Parsed) (i : Int) : (spawn_handle p i).count < U64 := by
  show 0 < U64
  decide

/-- The drain loop adds the common count once per completed handle, in
`uint64_t`. -/
theorem drain_count (c : Nat) (ta : List targ) (d : DrainState) (hd : d.count < U64)
    (h : ∀ t ∈ ta, t.completed ≠ 0 → t.count = c) :
    (ta.foldl drain_step d).count = (d.count + (completed_of ta).length * c) % U64 := by
  induction ta generalizing d with
  | nil =>
    show d.count = _
    simp only [completed_of, List.filter_nil, List.length_nil, Nat.zero_mul, Nat.add_zero]
    exact (Nat.mod_eq_of_lt hd).symm
  | cons t ts ih =>
    have hts : ∀ u ∈ ts, u.completed ≠ 0 → u.count = c :=
      fun u hu => h u (List.mem_cons_of_mem _ hu)
    rw [List.foldl_cons]
    by_cases hc : t.completed = 0
    · have e1 : drain_step d t = d := by simp [drain_step, hc]
      have e2 : completed_of (t :: ts) = completed_of ts := by simp [completed_of, hc]
      rw [e1, e2]
      exact ih d hd hts
    · have e1 : (drain_step d t).count = (d.count + c) % U64 := by
        simp [drain_step, hc, h t (List.mem_cons_self _ _) hc]
      have e2 : completed_of (t :: ts) = t :: completed_of ts := by simp [completed_of, hc]
      have hlt : (drain_step d t).count < U64 := by
        rw [e1]; exact Nat.mod_lt _ (by decide)
      rw [ih _ hlt hts, e1, e2, List.length_cons, Nat.succ_mul]
      generalize (completed_of ts).length * c = x
      unfold U64
      omega

/-- The slot of a handle does not depend on what `pthread_create` returned. -/
theorem spawn_one_slot (p : Parsed) (rc i : Int) :
    (spawn_one p rc i).glob_ctr = slot_index i p.align := by
  unfold spawn_one
  split <;> rfl

/-- With a zero stride every worker is on slot 0. -/
theorem slot_index_zero (i : Int) : slot_index i 0 = 0 := by
  simp [slot_index]

/-- The global built from representable options holds the cycle budget. -/
theorem glob_of_m_cycles (p : Parsed) (privs : Int) (h1 : -2 ^ 31 ≤ p.m_cycles)
    (h2 : p.m_cycles < 2 ^ 31) : (glob_of p privs).m_cycles = p.m_cycles := by
  unfold glob_arg.m_cycles glob_of
  simp only [if_true]
  exact int_of_word_of_int p.m_cycles h1 h2

/-- The handles after every created thread has run to its return, when no
bind fails and every handle points into the counter block: a handle is either
not completed or carries the full count, and when every creation succeeds all
of them are completed. -/
theorem run_spawn_handles (p : Parsed) (create : Nat → Int) (env : Nat → WorkerEnv)
    (hbind : ∀ i : Nat, setaffinity (affinity_target p.affinity i p.cpus) (env i).np = 0)
    (n i : Nat) (g : glob_arg) (hg : g.m_cycles = p.m_cycles)
    (hblock : ∀ j : Nat, i ≤ j → j < i + n → slot_index j p.align < ctr_len) :
    (∀ t ∈ (run_all create env i g (spawn_from p create n i).1).2,
        t.completed ≠ 0 → t.count = (p.m_cycles.toNat * 1000000) % U64)
    ∧ ((∀ j, create j = 0) →
        (completed_of (run_all create env i g (spawn_from p create n i).1).2).length = n) := by
  induction n generalizing i g with
  | zero =>
    exact ⟨fun t ht => absurd ht (List.not_mem_nil t), fun _ => rfl⟩
  | succ n ih =>
    have hrun : (run_all create env i g (spawn_from p create (n + 1) i).1).2
        = (run_thread (create i) (env i) g (spawn_one p (create i) (i : Int))).2
          :: (run_all create env (i + 1)
              (run_thread (create i) (env i) g (spawn_one p (create i) (i : Int))).1
              (spawn_from p create n (i + 1)).1).2 := rfl
    rw [hrun]
    have hin : slot_index (i : Int) p.align < ctr_len := hblock i (le_refl _) (by omega)
    have hslot1 : (spawn_one p (create i) (i : Int)).glob_ctr ≠ ctr_len := by
      rw [spawn_one_slot]; omega
    have hslot2 : (spawn_handle p (i : Int)).glob_ctr ≠ ctr_len := by
      show slot_index (i : Int) p.align ≠ ctr_len
      omega
    have hg2 : (run_thread (create i) (env i) g (spawn_one p (create i) (i : Int))).1.m_cycles
        = p.m_cycles := by
      unfold run_thread
      split
      · rw [td_body_glob _ _ _ hslot1]; exact hg
      · exact hg
    obtain ⟨ih1, ih2⟩ := ih (i + 1) _ hg2 (fun j h1 h2 => hblock j (by omega) (by omega))
    by_cases hc : create i = 0
    · have e0 : spawn_one p (create i) (i : Int) = spawn_handle p (i : Int) := by
        simp [spawn_one, hc]
      have e1 : (run_thread (create i) (env i) g (spawn_one p (create i) (i : Int))).2
          = { spawn_handle p (i : Int) with
              tic := (env i).start, toc := (env i).finish, completed := 1, used := 0,
              count := (0 + g.m_cycles.toNat * 1000000) % U64 } := by
        unfold run_thread
        rw [if_pos hc, e0]
        exact td_body_bound (env i) g (spawn_handle p (i : Int)) (hbind i)
          (spawn_handle_count p i) hslot2
      constructor
      · intro t ht _
        rcases List.mem_cons.mp ht with h | h
        · rw [h, e1, hg, Nat.zero_add]
        · exact ih1 t h ‹_›
      · intro hall
        have e2 : (run_thread (create i) (env i) g
            (spawn_one p (create i) (i : Int))).2.completed ≠ 0 := by
          rw [e1]
          show (1 : Int) ≠ 0
          decide
        rw [completed_of_cons_pos _ _ e2, List.length_cons, ih2 hall]
    · have e1 : (run_thread (create i) (env i) g (spawn_one p (create i) (i : Int))).2.completed
          = 0 := by
        unfold run_thread
        rw [if_neg hc]
        unfold spawn_one
        split <;> rfl
      constructor
      · intro t ht hne
        rcases List.mem_cons.mp ht with h | h
        · rw [h] at hne
          exact absurd e1 hne
        · exact ih1 t h hne
      · intro hall
        exact absurd (hall i) hc

/-- The count a worker ends with fits `uint64_t` for every `int` budget. -/
theorem budget_fits (m : Int) (hm : 0 ≤ m) (hmax : m < 2 ^ 31) :
    (m.toNat * 1000000) % U64 = (m * 1000000).toNat := by
  have h1 : (m * 1000000).toNat = m.toNat * 1000000 := by
    have : m = (m.toNat : Int) := (Int.toNat_of_nonneg hm).symm
    rw [this]
    norm_cast
  have h2 : m.toNat < 2 ^ 31 := by omega
  rw [h1]
  apply Nat.mod_eq_of_lt
  unfold U64
  omega

/-- The total of the drain loop after a run without bind failure in which
every handle points into the counter block. -/
theorem drain_total (p : Parsed) (privs : Int) (create : Nat → Int) (env : Nat → WorkerEnv)
    (h1 : -2 ^ 31 ≤ p.m_cycles) (h2 : p.m_cycles < 2 ^ 31)
    (hbind : ∀ i : Nat, setaffinity (affinity_target p.affinity i p.cpus) (env i).np = 0)
    (hblock : ∀ i : Nat, i < p.nthreads.toNat → slot_index i p.align < ctr_len) :
    (main_drain (run_all create env 0 (glob_of p privs) (main_spawn p create).1).2).count
      = ((completed_of (run_all create env 0 (glob_of p privs) (main_spawn p create).1).2).length
          * ((p.m_cycles.toNat * 1000000) % U64)) % U64 := by
  have h := (run_spawn_handles p create env hbind p.nthreads.toNat 0 (glob_of p privs)
    (glob_of_m_cycles p privs h1 h2) (fun j _ hj => hblock j (by omega))).1
  have e := drain_count ((p.m_cycles.toNat * 1000000) % U64)
    (run_all create env 0 (glob_of p privs) (main_spawn p create).1).2
    { count := 0, tic := timerclear, toc := timerclear } (by decide) h
  unfold main_drain
  rw [e, Nat.zero_add]

/-- Claim C2 (as stated, refuted), twice. First, 9000 threads on slot 0 with a
budget of 2147483647 million cycles, every thread created and bound and none
cancelled: the `uint64_t` total of the drain loop wraps to 880608749290448384
instead of 9000 * 2147483647 * 1000000. Second, two threads with a stride of
4096 bytes and a budget of 1: validation keeps the stride, worker 1 points at
word 1024, which is `g.m_cycles`, its own increments raise the bound of its
outer loop, and its count ends at two million or more instead of 1000000. -/
theorem C2_counterexample :
    ((main_drain (run_all (fun _ => 0) (fun _ => { np := 0, start := ⟨1, 0⟩, finish := ⟨2, 0⟩ }) 0
      (glob_of { default_parsed with nthreads := 9000, m_cycles := 2147483647 } 0)
      (main_spawn { default_parsed with nthreads := 9000, m_cycles := 2147483647 }
        (fun _ => 0)).1).2).count = 880608749290448384
    ∧ (main_drain (run_all (fun _ => 0) (fun _ => { np := 0, start := ⟨1, 0⟩, finish := ⟨2, 0⟩ }) 0
      (glob_of { default_parsed with nthreads := 9000, m_cycles := 2147483647 } 0)
      (main_spawn { default_parsed with nthreads := 9000, m_cycles := 2147483647 }
        (fun _ => 0)).1).2).count ≠ 9000 * 2147483647 * 1000000)
    ∧ (main_validate { default_parsed with nthreads := 2, align := 4096, m_cycles := 1 } 1
        = Except.ok { default_parsed with nthreads := 2, align := 4096, m_cycles := 1 }
      ∧ (spawn_handle { default_parsed with nthreads := 2, align := 4096, m_cycles := 1 }
          1).glob_ctr = ctr_len
      ∧ 2000000 ≤ (td_body { np := 0, start := ⟨1, 0⟩, finish := ⟨2, 0⟩ }
          (glob_of { default_parsed with nthreads := 2, align := 4096, m_cycles := 1 } 0)
          (spawn_handle { default_parsed with nthreads := 2, align := 4096, m_cycles := 1 }
            1)).2.count
      ∧ (td_body { np := 0, start := ⟨1, 0⟩, finish := ⟨2, 0⟩ }
          (glob_of { default_parsed with nthreads := 2, align := 4096, m_cycles := 1 } 0)
          (spawn_handle { default_parsed with nthreads := 2, align := 4096, m_cycles := 1 }
            1)).2.count ≠ 1 * 1000000) := by
  constructor
  · have hb : ∀ i : Nat, setaffinity (affinity_target
        ({ default_parsed with nthreads := 9000, m_cycles := 2147483647 } : Parsed).affinity i
        ({ default_parsed with nthreads := 9000, m_cycles := 2147483647 } : Parsed).cpus)
        ((fun _ => ({ np := 0, start := ⟨1, 0⟩, finish := ⟨2, 0⟩ } : WorkerEnv)) i).np = 0 :=
      fun _ => rfl
    have hblock : ∀ i : Nat,
        slot_index i ({ default_parsed with nthreads := 9000, m_cycles := 2147483647 } :
          Parsed).align < ctr_len := by
      intro i
      show slot_index i 0 < ctr_len
      rw [slot_index_zero]
      decide
    have h := drain_total { default_parsed with nthreads := 9000, m_cycles := 2147483647 } 0
      (fun _ => 0) (fun _ => { np := 0, start := ⟨1, 0⟩, finish := ⟨2, 0⟩ })
      (by decide) (by decide) hb (fun i _ => hblock i)
    have hn := (run_spawn_handles
      { default_parsed with nthreads := 9000, m_cycles := 2147483647 }
      (fun _ => 0) (fun _ => { np := 0, start := ⟨1, 0⟩, finish := ⟨2, 0⟩ }) hb 9000 0
      (glob_of { default_parsed with nthreads := 9000, m_cycles := 2147483647 } 0)
      (glob_of_m_cycles _ _ (by decide) (by decide)) (fun i _ _ => hblock i)).2
      (fun _ => rfl)
    have hspawn : main_spawn { default_parsed with nthreads := 9000, m_cycles := 2147483647 }
        (fun _ => 0)
        = spawn_from { default_parsed with nthreads := 9000, m_cycles := 2147483647 }
          (fun _ => 0) 9000 0 := rfl
    rw [hspawn] at h
    rw [hn] at h
    rw [hspawn]
    have e : (9000 * (((2147483647 : Int).toNat * 1000000) % U64)) % U64
        = 880608749290448384 := by
      decide
    have h2 := h.trans e
    refine ⟨h2, ?_⟩
    rw [h2]
    decide
  · have hge : 2000000 ≤ (td_body { np := 0, start := ⟨1, 0⟩, finish := ⟨2, 0⟩ }
          (glob_of { default_parsed with nthreads := 2, align := 4096, m_cycles := 1 } 0)
          (spawn_handle { default_parsed with nthreads := 2, align := 4096, m_cycles := 1 }
            1)).2.count := by
      rw [td_body_count _ _ _ (by rfl)]
      exact outer_loop_alias _ (by decide) (by decide) rfl
    refine ⟨by rfl, by decide, hge, ?_⟩
    omega

/-- Claim C2 (amended): for every configuration with an `int` budget
`m_cycles ≥ 0` in which every worker is assigned a slot of the counter block, without
cancellation and without bind failure, a worker that runs `td_body` ends with
a local count of exactly `m_cycles * 1000000`; the total of the drain loop is
the number of completed workers times that count, reduced modulo `2^64`; when
every creation succeeds the completed workers are all `nthreads` of them; and
the total is `nthreads * m_cycles * 1000000` itself whenever that is below
`2^64`. -/
theorem C2_total_work (p : Parsed) (privs : Int) (create : Nat → Int) (env : Nat → WorkerEnv)
    (hm : 0 ≤ p.m_cycles) (hmax : p.m_cycles < 2 ^ 31)
    (hbind : ∀ i : Nat, setaffinity (affinity_target p.affinity i p.cpus) (env i).np = 0)
    (hin : ∀ i : Nat, i < p.nthreads.toNat → in_block i p.align) :
    (∀ (i : Nat) (g : glob_arg), i < p.nthreads.toNat → g.m_cycles = p.m_cycles →
        (td_body (env i) g (spawn_handle p i)).2.count = (p.m_cycles * 1000000).toNat)
    ∧ (main_drain (run_all create env 0 (glob_of p privs) (main_spawn p create).1).2).count
        = ((completed_of (run_all create env 0 (glob_of p privs) (main_spawn p create).1).2).length
            * (p.m_cycles * 1000000).toNat) % U64
    ∧ ((∀ j, create j = 0) →
        (completed_of (run_all create env 0 (glob_of p privs) (main_spawn p create).1).2).length
          = p.nthreads.toNat)
    ∧ ((∀ j, create j = 0) → p.nthreads.toNat * (p.m_cycles * 1000000).toNat < U64 →
        (main_drain (run_all create env 0 (glob_of p privs) (main_spawn p create).1).2).count
          = p.nthreads.toNat * (p.m_cycles * 1000000).toNat) := by
  have hmin : -2 ^ 31 ≤ p.m_cycles := by omega
  have hblock : ∀ i : Nat, i < p.nthreads.toNat → slot_index i p.align < ctr_len :=
    fun i hi => (hin i hi).2
  have hfit := budget_fits p.m_cycles hm hmax
  have htot := drain_total p privs create env hmin hmax hbind hblock
  rw [hfit] at htot
  have hall := (run_spawn_handles p create env hbind p.nthreads.toNat 0 (glob_of p privs)
    (glob_of_m_cycles p privs hmin hmax) (fun j _ hj => hblock j (by omega))).2
  refine ⟨?_, htot, hall, ?_⟩
  · intro i g hi hg
    have hslot : (spawn_handle p i).glob_ctr ≠ ctr_len := by
      show slot_index (i : Int) p.align ≠ ctr_len
      have := hblock i hi
      omega
    have hb := td_body_bound (env i) g (spawn_handle p i) (hbind i) (spawn_handle_count p i) hslot
    rw [hb]
    show (0 + g.m_cycles.toNat * 1000000) % U64 = _
    rw [hg, Nat.zero_add, hfit]
  · intro hc hlt
    have hlen : (completed_of (run_all create env 0 (glob_of p privs)
        (main_spawn p create).1).2).length = p.nthreads.toNat := hall hc
    rw [htot, hlen, Nat.mod_eq_of_lt hlt]

/-- Claim C2 witness: four threads on slot 0, one million cycles each, all
created and bound: the total is 4,000,000. -/
theorem C2_total_work_witness :
    (main_drain (run_all (fun _ => 0) (fun _ => { np := 0, start := ⟨1, 0⟩, finish := ⟨2, 0⟩ }) 0
      (glob_of { default_parsed with nthreads := 4, m_cycles := 1 } 0)
      (main_spawn { default_parsed with nthreads := 4, m_cycles := 1 } (fun _ => 0)).1).2).count
      = 4000000 :=
  ((C2_total_work { default_parsed with nthreads := 4, m_cycles := 1 } 0 (fun _ => 0)
      (fun _ => { np := 0, start := ⟨1, 0⟩, finish := ⟨2, 0⟩ })
      (by decide) (by decide) (fun _ => rfl)
      (fun i _ => ⟨(mul_zero (i : Int)).ge, (slot_index_zero i).trans_lt (by decide)⟩)).2.2.2
      (fun _ => rfl) (by decide)).trans
    (by decide)

/-! ## The monitoring loop -/

/-- Claim C5: the monitoring loop entered at 1000.000000 s with passes at +20 ms,
+21 ms and +22 ms. The first pass prints; the second is skipped and leaves
the 1 ms difference in `toc`; the third then measures 1000.021 s and prints,
2 ms after the previous printed line. With passes 1 ms apart from the start
(report interval 1), every second pass prints, the first of them 2 ms after
the loop started. -/
theorem C5_debounce_overwrites_baseline :
    main_monitor 1 ⟨1000, 0⟩
      [ { now := ⟨1000, 20000⟩, ta := [{ spawn_handle default_parsed 0 with count := 20000000 }] },
        { now := ⟨1000, 21000⟩, ta := [{ spawn_handle default_parsed 0 with count := 21000000 }] },
        { now := ⟨1000, 22000⟩, ta := [{ spawn_handle default_parsed 0 with count := 22000000 }] } ]
      = [some 1000, none, some 0]
    ∧ (monitor_pass 1 { toc := ⟨1000, 20000⟩, prev := 20000000 }
        { now := ⟨1000, 21000⟩,
          ta := [{ spawn_handle default_parsed 0 with count := 21000000 }] }).1
        = { toc := ⟨0, 1000⟩, prev := 20000000 }
    ∧ main_monitor 1 ⟨1000, 0⟩
      [ { now := ⟨1000, 1000⟩, ta := [{ spawn_handle default_parsed 0 with count := 1000000 }] },
        { now := ⟨1000, 2000⟩, ta := [{ spawn_handle default_parsed 0 with count := 2000000 }] },
        { now := ⟨1000, 3000⟩, ta := [{ spawn_handle default_parsed 0 with count := 3000000 }] },
        { now := ⟨1000, 4000⟩, ta := [{ spawn_handle default_parsed 0 with count := 4000000 }] } ]
      = [none, some 0, none, some 0] := by
  refine ⟨by decide, by decide, by decide⟩

/-! ## The drain loop and the elapsed time -/

/-- On normal forms `timercmp` with `<` is the order of the microsecond
totals. -/
theorem timercmp_lt_iff (a b : timeval) (ha : normalised a) (hb : normalised b) :
    timercmp_lt a b = true ↔ usec_of a < usec_of b := by
  unfold normalised at ha hb
  unfold timercmp_lt usec_of
  split
  · rename_i h
    simp only [decide_eq_true_eq]
    omega
  · rename_i h
    simp only [decide_eq_true_eq]
    omega

/-- On normal forms `timercmp` with `>` is the order of the microsecond
totals. -/
theorem timercmp_gt_iff (a b : timeval) (ha : normalised a) (hb : normalised b) :
    timercmp_gt a b = true ↔ usec_of b < usec_of a := by
  unfold normalised at ha hb
  unfold timercmp_gt usec_of
  split
  · rename_i h
    simp only [decide_eq_true_eq, gt_iff_lt]
    omega
  · rename_i h
    simp only [decide_eq_true_eq, gt_iff_lt]
    omega

/-- The microsecond total of `timersub` is the difference of the totals. -/
theorem usec_of_timersub (a b : timeval) :
    usec_of (timersub a b) = usec_of a - usec_of b := by
  unfold timersub usec_of
  simp only
  split <;> simp only <;> omega

/-- The result of `timersub` on normal forms is in normal form. -/
theorem normalised_timersub (a b : timeval) (ha : normalised a) (hb : normalised b) :
    normalised (timersub a b) := by
  unfold normalised at *
  unfold timersub
  simp only
  split <;> simp only <;> omega

/-- One completed, stamped handle more keeps the drain relation. -/
theorem drain_step_inv (S : List targ) (d : DrainState) (t : targ)
    (hS : ∀ u ∈ S, stamped u) (ht : stamped t) (hc : t.completed ≠ 0)
    (hinv : drain_inv S d) : drain_inv (S ++ [t]) (drain_step d t) := by
  obtain ⟨ht1, ht2, ht3, ht4, _⟩ := ht
  have hstep : drain_step d t =
      { count := (d.count + t.count) % U64
        tic := if !timerisset d.tic || timercmp_lt t.tic d.tic then t.tic else d.tic
        toc := if !timerisset d.toc || timercmp_gt t.toc d.toc then t.toc else d.toc } := by
    unfold drain_step
    rw [if_neg hc]
  refine ⟨fun h => absurd h (by simp), fun _ => ?_⟩
  by_cases hnil : S = []
  · obtain ⟨h1, h2⟩ := hinv.1 hnil
    have e1 : (drain_step d t).tic = t.tic := by
      rw [hstep, h1]; rfl
    have e2 : (drain_step d t).toc = t.toc := by
      rw [hstep, h2]; rfl
    subst hnil
    refine ⟨⟨t, by simp, e1, ?_⟩, ⟨t, by simp, e2, ?_⟩⟩
    · intro u hu
      have : u = t := by simpa using hu
      rw [this]
    · intro u hu
      have : u = t := by simpa using hu
      rw [this]
  · obtain ⟨⟨a, haS, ha1, ha2⟩, ⟨b, hbS, hb1, hb2⟩⟩ := hinv.2 hnil
    obtain ⟨sa1, _, sa3, _, _⟩ := hS a haS
    obtain ⟨_, sb2, _, sb4, _⟩ := hS b hbS
    constructor
    · by_cases hlt : usec_of t.tic < usec_of a.tic
      · have e1 : (drain_step d t).tic = t.tic := by
          rw [hstep, ha1]
          show (if (!timerisset a.tic || timercmp_lt t.tic a.tic) = true then t.tic else a.tic) = _
          rw [(timercmp_lt_iff t.tic a.tic ht3 sa3).mpr hlt, Bool.or_true, if_pos rfl]
        refine ⟨t, by simp, e1, ?_⟩
        intro u hu
        rcases List.mem_append.mp hu with h | h
        · have := ha2 u h
          omega
        · have : u = t := by simpa using h
          rw [this]
      · have hf : timercmp_lt t.tic a.tic = false := by
          cases h : timercmp_lt t.tic a.tic with
          | false => rfl
          | true => exact absurd ((timercmp_lt_iff t.tic a.tic ht3 sa3).mp h) hlt
        have e1 : (drain_step d t).tic = a.tic := by
          rw [hstep, ha1]
          show (if (!timerisset a.tic || timercmp_lt t.tic a.tic) = true then t.tic else a.tic) = _
          rw [hf, sa1]
          rfl
        refine ⟨a, List.mem_append_left _ haS, e1, ?_⟩
        intro u hu
        rcases List.mem_append.mp hu with h | h
        · exact ha2 u h
        · have : u = t := by simpa using h
          rw [this]
          omega
    · by_cases hlt : usec_of b.toc < usec_of t.toc
      · have e1 : (drain_step d t).toc = t.toc := by
          rw [hstep, hb1]
          show (if (!timerisset b.toc || timercmp_gt t.toc b.toc) = true then t.toc else b.toc) = _
          rw [(timercmp_gt_iff t.toc b.toc ht4 sb4).mpr hlt, Bool.or_true, if_pos rfl]
        refine ⟨t, by simp, e1, ?_⟩
        intro u hu
        rcases List.mem_append.mp hu with h | h
        · have := hb2 u h
          omega
        · have : u = t := by simpa using h
          rw [this]
      · have hf : timercmp_gt t.toc b.toc = false := by
          cases h : timercmp_gt t.toc b.toc with
          | false => rfl
          | true => exact absurd ((timercmp_gt_iff t.toc b.toc ht4 sb4).mp h) hlt
        have e1 : (drain_step d t).toc = b.toc := by
          rw [hstep, hb1]
          show (if (!timerisset b.toc || timercmp_gt t.toc b.toc) = true then t.toc else b.toc) = _
          rw [hf, sb2]
          rfl
        refine ⟨b, List.mem_append_left _ hbS, e1, ?_⟩
        intro u hu
        rcases List.mem_append.mp hu with h | h
        · exact hb2 u h
        · have : u = t := by simpa using h
          rw [this]
          omega

/-- The drain loop keeps the drain relation over the handles it passes. -/
theorem drain_fold_inv (ta : List targ) (S : List targ) (d : DrainState)
    (hS : ∀ u ∈ S, stamped u) (hta : ∀ t ∈ ta, t.completed ≠ 0 → stamped t)
    (hinv : drain_inv S d) :
    drain_inv (S ++ completed_of ta) (ta.foldl drain_step d) := by
  induction ta generalizing S d with
  | nil =>
    show drain_inv (S ++ []) d
    rw [List.append_nil]
    exact hinv
  | cons t ts ih =>
    have hts : ∀ u ∈ ts, u.completed ≠ 0 → stamped u :=
      fun u hu => hta u (List.mem_cons_of_mem _ hu)
    rw [List.foldl_cons]
    by_cases hc : t.completed = 0
    · have e1 : drain_step d t = d := by simp [drain_step, hc]
      rw [e1, completed_of_cons_zero t ts hc]
      exact ih S d hS hts hinv
    · have ht : stamped t := hta t (List.mem_cons_self _ _) hc
      have hS2 : ∀ u ∈ S ++ [t], stamped u := by
        intro u hu
        rcases List.mem_append.mp hu with h | h
        · exact hS u h
        · have : u = t := by simpa using h
          rw [this]; exact ht
      have := ih (S ++ [t]) (drain_step d t) hS2 hts (drain_step_inv S d t hS ht hc hinv)
      rw [completed_of_cons_pos t ts hc]
      rw [List.append_assoc] at this
      exact this

/-- Claim C6: when every completed handle carries set timestamps in normal form with
start not after end, the elapsed time formed after the drain loop is, in
microseconds, the latest end minus the earliest start over the completed
handles; it is non-negative, with non-negative seconds and microseconds in
normal form; and it is zero when no handle completed. -/
theorem C6_final_elapsed (ta : List targ)
    (h : ∀ t ∈ ta, t.completed ≠ 0 → stamped t) :
    (completed_of ta = [] → main_elapsed (main_drain ta) = timerclear)
    ∧ (completed_of ta ≠ [] →
        ∃ a ∈ completed_of ta, ∃ b ∈ completed_of ta,
          (∀ t ∈ completed_of ta, usec_of a.tic ≤ usec_of t.tic)
          ∧ (∀ t ∈ completed_of ta, usec_of t.toc ≤ usec_of b.toc)
          ∧ (main_drain ta).tic = a.tic ∧ (main_drain ta).toc = b.toc
          ∧ usec_of (main_elapsed (main_drain ta)) = usec_of b.toc - usec_of a.tic)
    ∧ 0 ≤ usec_of (main_elapsed (main_drain ta))
    ∧ normalised (main_elapsed (main_drain ta))
    ∧ 0 ≤ (main_elapsed (main_drain ta)).tv_sec := by
  have hinv0 : drain_inv [] { count := 0, tic := timerclear, toc := timerclear } :=
    ⟨fun _ => ⟨rfl, rfl⟩, fun hne => absurd rfl hne⟩
  have hinv := drain_fold_inv ta [] _ (fun u hu => absurd hu (List.not_mem_nil u)) h hinv0
  rw [List.nil_append] at hinv
  have hst : ∀ u ∈ completed_of ta, stamped u := by
    intro u hu
    have hu2 := List.mem_filter.mp hu
    exact h u hu2.1 (by simpa using hu2.2)
  have hmain : completed_of ta ≠ [] →
        ∃ a ∈ completed_of ta, ∃ b ∈ completed_of ta,
          (∀ t ∈ completed_of ta, usec_of a.tic ≤ usec_of t.tic)
          ∧ (∀ t ∈ completed_of ta, usec_of t.toc ≤ usec_of b.toc)
          ∧ (main_drain ta).tic = a.tic ∧ (main_drain ta).toc = b.toc
          ∧ usec_of (main_elapsed (main_drain ta)) = usec_of b.toc - usec_of a.tic := by
    intro hne
    obtain ⟨⟨a, haS, ha1, ha2⟩, ⟨b, hbS, hb1, hb2⟩⟩ := hinv.2 hne
    refine ⟨a, haS, b, hbS, ha2, hb2, ha1, hb1, ?_⟩
    unfold main_elapsed
    rw [usec_of_timersub]
    have e1 : (main_drain ta).toc = b.toc := hb1
    have e2 : (main_drain ta).tic = a.tic := ha1
    rw [e1, e2]
  have hzero : completed_of ta = [] → main_elapsed (main_drain ta) = timerclear := by
    intro hnil
    obtain ⟨h1, h2⟩ := hinv.1 hnil
    unfold main_elapsed
    have e1 : (main_drain ta).toc = timerclear := h2
    have e2 : (main_drain ta).tic = timerclear := h1
    rw [e1, e2]
    rfl
  have hfacts : 0 ≤ usec_of (main_elapsed (main_drain ta))
      ∧ normalised (main_elapsed (main_drain ta)) := by
    by_cases hnil : completed_of ta = []
    · rw [hzero hnil]
      exact ⟨by decide, by decide⟩
    · obtain ⟨a, haS, b, hbS, ha2, hb2, ha1, hb1, he⟩ := hmain hnil
      constructor
      · rw [he]
        have h1 := hb2 a haS
        have h2 := (hst a haS).2.2.2.2
        omega
      · unfold main_elapsed
        rw [ha1, hb1]
        exact normalised_timersub _ _ (hst b hbS).2.2.2.1 (hst a haS).2.2.1
  refine ⟨hzero, hmain, hfacts.1, hfacts.2, ?_⟩
  have h1 := hfacts.1
  have h2 := hfacts.2
  unfold usec_of at h1
  unfold normalised at h2
  omega

/-- Claim C6 witness: three joined handles, the second not completed; the elapsed
time is 12.5 s, from the start at 100.2 s to the end at 112.7 s. -/
theorem C6_final_elapsed_witness :
    usec_of (main_elapsed (main_drain
      [ { spawn_handle default_parsed 0 with
          completed := 1, tic := ⟨100, 500000⟩, toc := ⟨110, 100000⟩ },
        { spawn_handle default_parsed 1 with completed := 0 },
        { spawn_handle default_parsed 2 with
          completed := 1, tic := ⟨100, 200000⟩, toc := ⟨112, 700000⟩ } ])) = 12500000
    ∧ 0 ≤ usec_of (main_elapsed (main_drain
      [ { spawn_handle default_parsed 0 with
          completed := 1, tic := ⟨100, 500000⟩, toc := ⟨110, 100000⟩ },
        { spawn_handle default_parsed 1 with completed := 0 },
        { spawn_handle default_parsed 2 with
          completed := 1, tic := ⟨100, 200000⟩, toc := ⟨112, 700000⟩ } ])) :=
  ⟨by decide,
   (C6_final_elapsed
      [ { spawn_handle default_parsed 0 with
          completed := 1, tic := ⟨100, 500000⟩, toc := ⟨110, 100000⟩ },
        { spawn_handle default_parsed 1 with completed := 0 },
        { spawn_handle default_parsed 2 with
          completed := 1, tic := ⟨100, 200000⟩, toc := ⟨112, 700000⟩ } ]
      (by decide)).2.2.1⟩

end Testlock
